import Mathlib

/-!
Verification of the compiled-script runtime of scratch-vm (`src/compiler/execute.js`).

Scratch scalar values (JavaScript numbers, strings, booleans, `null`,
`undefined`) are embedded as `SValue`.  JavaScript numbers are modelled
exactly: `JSNum` is a rational together with the three non-finite values
`NaN`, `Infinity` and `-Infinity`.  The bitwise `| 0` coercion of the source
is modelled as ToInt32 (truncation followed by reduction modulo 2^32 into the
signed 32-bit range).  `Math.random()` results are passed in explicitly as a
rational parameter `r` with `0 ≤ r < 1`.
-/

namespace ScratchVM

/-- JavaScript number: a rational, or one of the non-finite values. -/
inductive JSNum where
  | nan : JSNum
  | posInf : JSNum
  | negInf : JSNum
  | finite : ℚ → JSNum
deriving DecidableEq

/-- A Scratch scalar value as seen by the compiled-script runtime. -/
inductive SValue where
  | num : JSNum → SValue
  | str : String → SValue
  | bool : Bool → SValue
  | null : SValue
  | undefined : SValue
deriving DecidableEq

/-- JavaScript strict equality (`===`) on numbers: `NaN` is equal to nothing,
each infinity only to itself, finite values by exact value. -/
def jsEq : JSNum → JSNum → Bool
  | .nan, _ => false
  | _, .nan => false
  | .posInf, .posInf => true
  | .negInf, .negInf => true
  | .finite a, .finite b => a == b
  | _, _ => false

/-- JavaScript strict equality (`===`) on scalar values: same type and same
value, with `jsEq` on numbers. -/
def sEq : SValue → SValue → Bool
  | .num a, .num b => jsEq a b
  | .str a, .str b => a == b
  | .bool a, .bool b => a == b
  | .null, .null => true
  | .undefined, .undefined => true
  | _, _ => false

/-- The characters JavaScript `String.prototype.trim` (and `Number(string)`)
treats as whitespace: ASCII whitespace, NBSP, the Unicode space separators,
line/paragraph separators and the BOM. -/
def jsWhite (c : Char) : Bool :=
  c.val = 9 || c.val = 10 || c.val = 11 || c.val = 12 || c.val = 13 ||
  c.val = 32 || c.val = 0xa0 || c.val = 0x1680 ||
  (0x2000 ≤ c.val && c.val ≤ 0x200a) ||
  c.val = 0x2028 || c.val = 0x2029 || c.val = 0x202f || c.val = 0x205f ||
  c.val = 0x3000 || c.val = 0xfeff

/-- Strip leading and trailing JavaScript whitespace from a character list. -/
def jsTrim (cs : List Char) : List Char :=
  ((cs.dropWhile jsWhite).reverse.dropWhile jsWhite).reverse

/-- Decimal digit test. -/
def isDigit10 (c : Char) : Bool := '0' ≤ c && c ≤ '9'

/-- Value of a digit character in bases up to 16, `none` for non-digits. -/
def digitVal (c : Char) : Option ℕ :=
  if '0' ≤ c ∧ c ≤ '9' then some (c.toNat - '0'.toNat)
  else if 'a' ≤ c ∧ c ≤ 'f' then some (c.toNat - 'a'.toNat + 10)
  else if 'A' ≤ c ∧ c ≤ 'F' then some (c.toNat - 'A'.toNat + 10)
  else none

/-- Read a digit string in the given base; `none` on any invalid digit. -/
def digitsVal (base : ℕ) : List Char → ℕ → Option ℕ
  | [], acc => some acc
  | c :: t, acc =>
    match digitVal c with
    | some d => if d < base then digitsVal base t (acc * base + d) else none
    | none => none

/-- Numeric value of a list of decimal digit characters. -/
def natOfDigits (cs : List Char) : ℕ :=
  cs.foldl (fun acc c => acc * 10 + (c.toNat - 48)) 0

/-- Parse the exponent part of a JavaScript numeric literal (after `e`/`E`):
an optional sign followed by a nonempty run of decimal digits. -/
def parseExp (cs : List Char) : Option ℤ :=
  match cs with
  | '+' :: t => if t ≠ [] ∧ t.all isDigit10 then some (natOfDigits t) else none
  | '-' :: t => if t ≠ [] ∧ t.all isDigit10 then some (-(natOfDigits t : ℤ)) else none
  | _ => if cs ≠ [] ∧ cs.all isDigit10 then some (natOfDigits cs) else none

/-- `10 ^ k` as a rational, via `Nat` power (kernel-reducible). -/
def pow10 (k : ℕ) : ℚ := ((10 ^ k : ℕ) : ℚ)

/-- `10 ^ e` for an integer exponent, as a rational. -/
def zpow10 (e : ℤ) : ℚ :=
  if 0 ≤ e then pow10 e.toNat else 1 / pow10 (-e).toNat

/-- The digit data of a decimal JavaScript numeric literal: value of the
integer-part digits, value and count of the fraction-part digits, exponent. -/
structure DecLit where
  ip : ℕ
  fp : ℕ
  flen : ℕ
  e : ℤ
deriving DecidableEq

/-- Rational value of a decimal literal's digit data. -/
def decLitVal (d : DecLit) : ℚ :=
  ((d.ip : ℚ) + (d.fp : ℚ) / pow10 d.flen) * zpow10 d.e

/-- Parse the digit data of an unsigned decimal JavaScript numeric literal:
`digits [. digits] [e|E [sign] digits]`, needing at least one digit in the
integer or fraction part and consuming the whole input. -/
def parseDecLit (cs : List Char) : Option DecLit :=
  let intPart := cs.takeWhile isDigit10
  let rest1 := cs.dropWhile isDigit10
  let fracPart :=
    match rest1 with
    | '.' :: t => t.takeWhile isDigit10
    | _ => []
  let rest2 :=
    match rest1 with
    | '.' :: t => t.dropWhile isDigit10
    | _ => rest1
  if intPart.isEmpty ∧ fracPart.isEmpty then none
  else
    match rest2 with
    | [] => some ⟨natOfDigits intPart, natOfDigits fracPart, fracPart.length, 0⟩
    | c :: t =>
      if c = 'e' ∨ c = 'E' then
        match parseExp t with
        | some e => some ⟨natOfDigits intPart, natOfDigits fracPart, fracPart.length, e⟩
        | none => none
      else none

/-- Parse an unsigned decimal JavaScript numeric literal to its value. -/
def parseUnsignedDec (cs : List Char) : Option ℚ :=
  (parseDecLit cs).map decLitVal

/-- Parse a signed body (sign already removed): `Infinity` or a decimal. -/
def parseAfterSign (cs : List Char) (neg : Bool) : JSNum :=
  if cs = "Infinity".toList then (if neg then .negInf else .posInf)
  else
    match parseUnsignedDec cs with
    | some q => .finite (if neg then -q else q)
    | none => .nan

/-- Parse digits in a radix-prefixed literal (`0x…`, `0o…`, `0b…`). -/
def parseRadix (base : ℕ) (cs : List Char) : JSNum :=
  if cs = [] then .nan
  else
    match digitsVal base cs 0 with
    | some v => .finite v
    | none => .nan

/-- JavaScript `Number(string)`: trim, empty → `0`, else a signed decimal or
`Infinity` literal, or an unsigned radix-prefixed literal; anything else is
`NaN`. -/
def parseJSNumber (s : String) : JSNum :=
  match jsTrim s.toList with
  | [] => .finite 0
  | '+' :: t => parseAfterSign t false
  | '-' :: t => parseAfterSign t true
  | '0' :: c :: t =>
    if c = 'x' ∨ c = 'X' then parseRadix 16 t
    else if c = 'o' ∨ c = 'O' then parseRadix 8 t
    else if c = 'b' ∨ c = 'B' then parseRadix 2 t
    else parseAfterSign ('0' :: c :: t) false
  | cs => parseAfterSign cs false

/-- JavaScript unary `+v` (ToNumber) on a scalar value. -/
def toNumber : SValue → JSNum
  | .num n => n
  | .str s => parseJSNumber s
  | .bool b => .finite (if b then 1 else 0)
  | .null => .finite 0
  | .undefined => .nan

/-- Multiplicity of a prime factor `p ≥ 2` in `n` (`0` once `p` no longer
divides, or on the degenerate arguments). -/
def countFactor (p n : ℕ) : ℕ :=
  if h : 2 ≤ p ∧ 0 < n ∧ n % p = 0 then countFactor p (n / p) + 1 else 0
  decreasing_by
    exact Nat.div_lt_self h.2.1 (lt_of_lt_of_le (by norm_num) h.1)

/-- Decimal rendering of a rational whose denominator is of the form
`2^a * 5^b` (every value a double can take has this form); other denominators
fall back to a fraction rendering, which no JavaScript number ever needs. -/
def decimalRepr (q : ℚ) : String :=
  if q.den = 1 then toString q.num
  else
    let k := max (countFactor 2 q.den) (countFactor 5 q.den)
    let n : ℚ := q * pow10 k
    if n.den = 1 then
      let digits := toString n.num.natAbs
      let padded :=
        if digits.length < k + 1 then
          String.mk (List.replicate (k + 1 - digits.length) '0') ++ digits
        else digits
      (if q.num < 0 then "-" else "") ++
        padded.dropRight k ++ "." ++ padded.takeRight k
    else toString q.num ++ "/" ++ toString q.den

/-- JavaScript number-to-string. -/
def jsNumToString : JSNum → String
  | .nan => "NaN"
  | .posInf => "Infinity"
  | .negInf => "-Infinity"
  | .finite q => decimalRepr q

/-- JavaScript `'' + v` (ToString) on a scalar value. -/
def toJSString : SValue → String
  | .num n => jsNumToString n
  | .str s => s
  | .bool b => if b then "true" else "false"
  | .null => "null"
  | .undefined => "undefined"

/-- JavaScript `toLowerCase`, character by character (ASCII-faithful). -/
def jsToLower (s : String) : String := String.mk (s.toList.map Char.toLower)

/-- `isWhiteSpace` from `src/compiler/execute.js`:
`val === null || (typeof val === 'string' && val.trim().length === 0)`. -/
def isWhiteSpace (val : SValue) : Bool :=
  val = SValue.null ||
    (match val with
     | .str s => (jsTrim s.toList).isEmpty
     | _ => false)

/-- `compareEqual` from `src/compiler/execute.js`.  `n1`/`n2` follow the
source's `if`/`else if`: the second operand is only NaN-ified when the first
was not. -/
def compareEqual (v1 v2 : SValue) : Bool :=
  let c1 := toNumber v1
  let c2 := toNumber v2
  let n1 := if c1 = JSNum.finite 0 ∧ isWhiteSpace v1 then JSNum.nan else c1
  let n2 :=
    if ¬(c1 = JSNum.finite 0 ∧ isWhiteSpace v1) ∧ (c2 = JSNum.finite 0 ∧ isWhiteSpace v2)
    then JSNum.nan else c2
  if n1 = JSNum.nan ∨ n2 = JSNum.nan then
    jsToLower (toJSString v1) == jsToLower (toJSString v2)
  else jsEq n1 n2

/-! ### List indexing (`listIndex` and the list operations) -/

/-- Truncation toward zero of a rational (JavaScript's ToIntegerOrInfinity
step on finite values). -/
def truncQ (q : ℚ) : ℤ := if 0 ≤ q then ⌊q⌋ else ⌈q⌉

/-- JavaScript ToInt32 (the `| 0` coercion): non-finite values become `0`,
finite values are truncated toward zero and reduced modulo `2 ^ 32` into
`[-2 ^ 31, 2 ^ 31)`. -/
def toInt32 (n : JSNum) : ℤ :=
  match n with
  | .nan => 0
  | .posInf => 0
  | .negInf => 0
  | .finite q =>
    let m := truncQ q % (2 ^ 32 : ℤ)
    if m < 2 ^ 31 then m else m - 2 ^ 32

/-- JavaScript `n || 0` on a number: `0` when `n` is falsy (`NaN` or `±0`),
otherwise `n` itself. -/
def orZero (n : JSNum) : JSNum :=
  if n = JSNum.nan ∨ n = JSNum.finite 0 then .finite 0 else n

/-- The final bounds check of `listIndex`:
`if (index < 1 || index > length) return -1; return index - 1;`. -/
def boundsCheck (i : ℤ) (length : ℕ) : ℤ :=
  if i < 1 ∨ i > (length : ℤ) then -1 else i - 1

/-- `listIndex` from `src/compiler/execute.js`.  `r` stands for the
`Math.random()` sample used by the `"random"`/`"*"` branch. -/
def listIndex (index : SValue) (length : ℕ) (r : ℚ) : ℤ :=
  match index with
  | .num n => boundsCheck (toInt32 n) length
  | _ =>
    if index = SValue.str "last" then
      if 0 < length then (length : ℤ) - 1 else -1
    else if index = SValue.str "random" ∨ index = SValue.str "*" then
      if 0 < length then toInt32 (.finite (r * (length : ℚ))) else -1
    else boundsCheck (toInt32 (orZero (toNumber index))) length

/-- JavaScript read `list[i]` on an array: `undefined` outside the bounds. -/
def jsArrayGet (l : List SValue) (i : ℤ) : SValue :=
  if 0 ≤ i ∧ i < (l.length : ℤ) then l.getD i.toNat .undefined else .undefined

/-- JavaScript write `list[i] = v` on an array: a negative or out-of-range
index stores a non-element property, leaving the elements unchanged. -/
def jsArraySet (l : List SValue) (i : ℤ) (v : SValue) : List SValue :=
  if 0 ≤ i ∧ i < (l.length : ℤ) then l.set i.toNat v else l

/-- The index clamping of `Array.prototype.splice`. -/
def spliceIndex (len : ℕ) (i : ℤ) : ℕ :=
  (if i < 0 then max ((len : ℤ) + i) 0 else min i (len : ℤ)).toNat

/-- JavaScript `list.splice(i, 0, v)`. -/
def jsSpliceInsert (l : List SValue) (i : ℤ) (v : SValue) : List SValue :=
  l.insertIdx (spliceIndex l.length i) v

/-- JavaScript `list.splice(i, 1)`. -/
def jsSpliceDelete (l : List SValue) (i : ℤ) : List SValue :=
  l.eraseIdx (spliceIndex l.length i)

/-- A Scratch list variable: its element array and its monitor dirty flag
(`_monitorUpToDate` in the source). -/
structure ListVar where
  value : List SValue
  monitorUpToDate : Bool
deriving DecidableEq

/-- `listGet` from `src/compiler/execute.js` (takes the raw element array). -/
def listGet (list : List SValue) (idx : SValue) (r : ℚ) : SValue :=
  let index := listIndex idx list.length r
  if index = -1 then .str ""
  else jsArrayGet list index

/-- `listReplace` from `src/compiler/execute.js`. -/
def listReplace (list : ListVar) (idx : SValue) (value : SValue) (r : ℚ) : ListVar :=
  let index := listIndex idx list.value.length r
  if index = -1 then list
  else { value := jsArraySet list.value index value, monitorUpToDate := false }

/-- `listInsert` from `src/compiler/execute.js` (note the `length + 1`
bound, which lets index `length + 1` append). -/
def listInsert (list : ListVar) (idx : SValue) (value : SValue) (r : ℚ) : ListVar :=
  let index := listIndex idx (list.value.length + 1) r
  if index = -1 then list
  else { value := jsSpliceInsert list.value index value, monitorUpToDate := false }

/-- `listDelete` from `src/compiler/execute.js`.  The `'all'` index clears
the element array and returns at once (without touching the monitor flag). -/
def listDelete (list : ListVar) (idx : SValue) (r : ℚ) : ListVar :=
  if idx = SValue.str "all" then { list with value := [] }
  else
    let index := listIndex idx list.value.length r
    if index = -1 then list
    else { value := jsSpliceDelete list.value index, monitorUpToDate := false }

/-- JavaScript `Array.prototype.indexOf` (strict equality): 0-based index of
the first strictly-equal element, `-1` when there is none. -/
def jsIndexOf (l : List SValue) (item : SValue) : ℤ :=
  match l with
  | [] => -1
  | x :: t => if sEq x item then 0 else
      let r := jsIndexOf t item
      if r = -1 then -1 else r + 1

/-- `listContains` from `src/compiler/execute.js`: a strict-equality fast
path, then a scan with `compareEqual`. -/
def listContains (list : ListVar) (item : SValue) : Bool :=
  if jsIndexOf list.value item ≠ -1 then true
  else list.value.any fun x => compareEqual x item

/-- The scanning loop of `listIndexOf`, carrying the 0-based position `i`. -/
def listIndexOfAux (item : SValue) : List SValue → ℕ → ℕ
  | [], _ => 0
  | x :: t, i => if compareEqual x item then i + 1 else listIndexOfAux item t (i + 1)

/-- `listIndexOf` from `src/compiler/execute.js`: 1-based index of the first
`compareEqual` match, `0` when there is none. -/
def listIndexOf (list : ListVar) (item : SValue) : ℕ :=
  listIndexOfAux item list.value 0

/-! ### Floored modulo -/

/-- JavaScript `n % m` on finite numbers with `m ≠ 0`: the exact remainder
`n - m * trunc (n / m)` (sign of `n`). -/
def jsRem (n m : ℚ) : ℚ := n - m * (truncQ (n / m) : ℚ)

/-- `mod` from `src/compiler/execute.js`:
`let result = n % modulus; if (result / modulus < 0) result += modulus;`. -/
def mod (n modulus : ℚ) : ℚ :=
  let result := jsRem n modulus
  if result / modulus < 0 then result + modulus else result

/-! ### Thread statuses and the suspension primitives -/

/-- The thread status enum of `engine/thread.js`. -/
inductive ThreadStatus where
  | RUNNING
  | PROMISE_WAIT
  | YIELD
  | YIELD_TICK
  | DONE
deriving DecidableEq

/-- The scheduler state a `waitThreads` resumption observes: which thread
ids sit in the runtime's active list, and each thread's status. -/
structure ThreadsEnv where
  active : ℕ → Bool
  status : ℕ → ThreadStatus

/-- Modelled from the spec: `runtime.isWaitingThread` (engine/runtime.js,
which is not under `src/`).  Per the spec's stall-detection description, a
thread counts as waiting when it is barrier-waiting (awaiting an async
result or a tick boundary) or no longer in the active set. -/
def isWaitingThread (env : ThreadsEnv) (t : ℕ) : Bool :=
  env.status t = ThreadStatus.PROMISE_WAIT ||
  env.status t = ThreadStatus.YIELD_TICK ||
  !env.active t

/-- `anyRunning` scan of `waitThreads`: is some listed thread still in the
runtime's active list? -/
def anyRunning (env : ThreadsEnv) (threads : List ℕ) : Bool :=
  threads.any env.active

/-- `allWaiting` scan of `waitThreads`. -/
def allWaiting (env : ThreadsEnv) (threads : List ℕ) : Bool :=
  threads.all (isWaitingThread env)

/-- One resumption of the `waitThreads` generator: the current thread's
status afterwards, and whether the generator returned (instead of yielding). -/
def waitThreadsResume (env : ThreadsEnv) (threads : List ℕ)
    (st : ThreadStatus) : ThreadStatus × Bool :=
  if anyRunning env threads = false then (st, true)
  else ((if allWaiting env threads then ThreadStatus.YIELD_TICK else st), false)

/-- Run the `waitThreads` generator against the stream of scheduler states
`envs` (index `k` is the state seen at the `k`-th resumption), with `fuel`
resumptions available.  Returns the resumption index at which the generator
returned and the current thread's status then, or `none` if the fuel ran
out with some listed thread still active. -/
def waitThreadsRun (envs : ℕ → ThreadsEnv) (threads : List ℕ) :
    ThreadStatus → ℕ → ℕ → Option (ℕ × ThreadStatus)
  | _, 0, _ => none
  | st, fuel + 1, k =>
    let (st', ret) := waitThreadsResume (envs k) threads st
    if ret then some (k, st') else waitThreadsRun envs threads st' fuel (k + 1)

/-! ### `waitPromise` -/

/-- The settlement of an async handle. -/
inductive PromiseOutcome where
  | resolved : SValue → PromiseOutcome
  | rejected : String → PromiseOutcome
deriving DecidableEq

/-- The observable state of a `waitPromise` suspension: the awaiting
thread's status, the `returnValue` local, and the warnings logged so far. -/
structure WaitPromiseState where
  status : ThreadStatus
  returnValue : SValue
  warnings : List String
deriving DecidableEq

/-- Entering `waitPromise`: `returnValue` starts as `undefined`, the thread
enters `STATUS_PROMISE_WAIT`, and the generator yields. -/
def waitPromiseStart : WaitPromiseState :=
  { status := .PROMISE_WAIT, returnValue := .undefined, warnings := [] }

/-- The promise handlers of `waitPromise`.  The `.then` handler stores the
value and wakes the thread; the `.catch` handler wakes the thread and logs a
warning, leaving `returnValue` untouched.  An unhandled rejection would be
`Except.error`; the source installs a `.catch` handler, so both outcomes
produce `Except.ok`. -/
def waitPromiseSettle (out : PromiseOutcome) (s : WaitPromiseState) :
    Except String WaitPromiseState :=
  match out with
  | .resolved v => .ok { s with status := .RUNNING, returnValue := v }
  | .rejected e =>
    .ok { s with
          status := .RUNNING
          warnings := s.warnings ++ ["Promise rejected in compiled script: " ++ e] }

/-- Resuming after settlement: the generator returns `returnValue`. -/
def waitPromiseResume (s : WaitPromiseState) : SValue := s.returnValue

/-! ### The compatibility bridge (`executeInCompatibilityLayer`) -/

/-- One call of the `isStuck` heuristic: the counter is bumped, and only on
every 10th call is the timer consulted (`over` is whether the elapsed time
of the current tick exceeds 500 ms at that moment). -/
def isStuckStep (c : ℕ) (over : Bool) : ℕ × Bool :=
  if c + 1 = 10 then (0, over) else (c + 1, false)

/-- The bridge-visible thread state: status, warp depth, and the module
level `stuckCounter`. -/
structure CompatState where
  status : ThreadStatus
  warp : ℕ
  stuckCounter : ℕ
deriving DecidableEq

/-- What one invocation of the legacy block function produces: a plain value
or an async handle (a promise, identified by a tag), together with the
status the block function left the thread in. -/
inductive BlockResult where
  | value : SValue → ThreadStatus → BlockResult
  | promise : ℕ → ThreadStatus → BlockResult
deriving DecidableEq

/-- The status a block invocation leaves the thread in. -/
def blockStatus : BlockResult → ThreadStatus
  | .value _ st => st
  | .promise _ st => st

/-- The yield handling at the top of the bridge loop body, entered with
status `YIELD` or `YIELD_TICK`: on `YIELD` the status is reset to `RUNNING`
and the loop suspends only when the warp depth is `0` (short-circuiting past
`isStuck`) or the stuck heuristic trips; on `YIELD_TICK` it always suspends,
leaving the status alone.  Returns the new state and whether the loop
suspended (yielded to the event loop). -/
def yieldPhase (s : CompatState) (over : Bool) : CompatState × Bool :=
  if s.status = ThreadStatus.YIELD then
    let s' := { s with status := ThreadStatus.RUNNING }
    if s.warp = 0 then (s', true)
    else
      let (c', stuck) := isStuckStep s.stuckCounter over
      ({ s' with stuckCounter := c' }, stuck)
  else (s, true)

/-- The outcome of the bridge: a final value (with the final thread state),
a delegation to `waitPromise` on an async handle, or fuel exhaustion. -/
inductive BridgeOutcome where
  | finished : SValue → CompatState → BridgeOutcome
  | delegated : ℕ → CompatState → BridgeOutcome
  | fuelOut : CompatState → BridgeOutcome
deriving DecidableEq

/-- The `while` loop of `executeInCompatibilityLayer`.  `blocks k` is what
the `k`-th invocation of the block function returns (and the status it sets),
`over k` is the timer reading at iteration `k`, `v` the value produced by the
previous invocation. -/
def bridgeLoop (over : ℕ → Bool) (blocks : ℕ → BlockResult) :
    ℕ → CompatState → SValue → ℕ → BridgeOutcome
  | 0, s, _, _ => .fuelOut s
  | fuel + 1, s, v, k =>
    if s.status = ThreadStatus.YIELD ∨ s.status = ThreadStatus.YIELD_TICK then
      let s1 := (yieldPhase s (over k)).1
      match blocks k with
      | .value v' ns => bridgeLoop over blocks fuel { s1 with status := ns } v' (k + 1)
      | .promise p _ => .delegated p { s1 with status := ThreadStatus.PROMISE_WAIT }
    else .finished v s

/-- `executeInCompatibilityLayer` from `src/compiler/execute.js`: the first
block invocation, promise check, then the yield loop. -/
def executeInCompatibilityLayer (fuel : ℕ) (s0 : CompatState)
    (over : ℕ → Bool) (blocks : ℕ → BlockResult) : BridgeOutcome :=
  match blocks 0 with
  | .promise p _ => .delegated p { s0 with status := ThreadStatus.PROMISE_WAIT }
  | .value v ns => bridgeLoop over blocks fuel { s0 with status := ns } v 1

/-! ## Theorems -/

/-- The spec's effective numeric coercion: a value that coerces to `0` but
is whitespace-only or null is treated as not-a-number. -/
def specNum (v : SValue) : JSNum :=
  if toNumber v = JSNum.finite 0 ∧ isWhiteSpace v then .nan else toNumber v

/-- Equality as the spec words it: if either operand's effective coercion is
not-a-number, a case-insensitive comparison of the string forms, otherwise
numeric equality. -/
def specEqual (v1 v2 : SValue) : Bool :=
  if specNum v1 = JSNum.nan ∨ specNum v2 = JSNum.nan then
    jsToLower (toJSString v1) == jsToLower (toJSString v2)
  else jsEq (specNum v1) (specNum v2)

theorem compareEqual_eq_specEqual (v1 v2 : SValue) :
    compareEqual v1 v2 = specEqual v1 v2 := by
  unfold compareEqual specEqual specNum
  by_cases h1 : toNumber v1 = JSNum.finite 0 ∧ isWhiteSpace v1 <;>
    by_cases h2 : toNumber v2 = JSNum.finite 0 ∧ isWhiteSpace v2 <;>
      simp [h1, h2]

/-- C1: `compareEqual` coerces both operands numerically, demotes a
zero-coercing whitespace-only (or null) operand to not-a-number, compares
case-insensitively as strings when either side is then not-a-number and
numerically otherwise; `compareEqual("Foo","foo") = true`,
`compareEqual(" ", 0) = false`, `compareEqual("5","5.0") = true`. -/
theorem compareEqual_matches_spec :
    (∀ v1 v2 : SValue, compareEqual v1 v2 = specEqual v1 v2) ∧
    compareEqual (.str "Foo") (.str "foo") = true ∧
    compareEqual (.str " ") (.num (.finite 0)) = false ∧
    compareEqual (.str "5") (.str "5.0") = true := by
  refine ⟨compareEqual_eq_specEqual, by decide, by decide, ?_⟩
  have h1 : toNumber (SValue.str "5") = .finite (decLitVal ⟨5, 0, 0, 0⟩) := rfl
  have h2 : toNumber (SValue.str "5.0") = .finite (decLitVal ⟨5, 0, 1, 0⟩) := rfl
  have e1 : decLitVal ⟨5, 0, 0, 0⟩ = 5 := by norm_num [decLitVal, pow10, zpow10]
  have e2 : decLitVal ⟨5, 0, 1, 0⟩ = 5 := by norm_num [decLitVal, pow10, zpow10]
  have hw : isWhiteSpace (SValue.str "5") = false := by decide
  have hw2 : isWhiteSpace (SValue.str "5.0") = false := by decide
  simp [compareEqual, h1, h2, e1, e2, hw, hw2, jsEq]

/-! ### `listIndex` bounds -/

theorem truncQ_nonneg_bounds (q : ℚ) (h : 0 ≤ q) :
    0 ≤ truncQ q ∧ (truncQ q : ℚ) ≤ q := by
  unfold truncQ
  rw [if_pos h]
  exact ⟨Int.floor_nonneg.2 h, Int.floor_le q⟩

theorem randomTrunc_bounds (r : ℚ) (len : ℕ) (h0 : 0 ≤ r) (h1 : r < 1)
    (hl : 0 < len) : 0 ≤ truncQ (r * (len : ℚ)) ∧ truncQ (r * (len : ℚ)) ≤ (len : ℤ) - 1 := by
  have hlen : (0 : ℚ) < (len : ℚ) := by exact_mod_cast hl
  have hnn : 0 ≤ r * (len : ℚ) := mul_nonneg h0 hlen.le
  have hlt : r * (len : ℚ) < (len : ℚ) := by
    calc r * (len : ℚ) < 1 * (len : ℚ) := by
          exact mul_lt_mul_of_pos_right h1 hlen
      _ = (len : ℚ) := one_mul _
  have hfl : truncQ (r * (len : ℚ)) = ⌊r * (len : ℚ)⌋ := by
    unfold truncQ; rw [if_pos hnn]
  constructor
  · rw [hfl]; exact Int.floor_nonneg.2 hnn
  · rw [hfl]
    have : ⌊r * (len : ℚ)⌋ < (len : ℤ) := by
      rw [Int.floor_lt]; exact_mod_cast hlt
    omega

theorem toInt32_range (n : JSNum) : -2 ^ 31 ≤ toInt32 n ∧ toInt32 n < 2 ^ 31 := by
  cases n with
  | nan => simp [toInt32]
  | posInf => simp [toInt32]
  | negInf => simp [toInt32]
  | finite q =>
    unfold toInt32
    have h1 : 0 ≤ truncQ q % (2 ^ 32 : ℤ) := Int.emod_nonneg _ (by norm_num)
    have h2 : truncQ q % (2 ^ 32 : ℤ) < 2 ^ 32 := Int.emod_lt_of_pos _ (by norm_num)
    dsimp only
    split <;> omega

theorem toInt32_of_small (q : ℚ) (h0 : 0 ≤ truncQ q) (h1 : truncQ q < 2 ^ 31) :
    toInt32 (.finite q) = truncQ q := by
  unfold toInt32
  have : truncQ q % (2 ^ 32 : ℤ) = truncQ q := Int.emod_eq_of_lt h0 (by omega)
  simp only [this]
  omega

theorem boundsCheck_cases (i : ℤ) (len : ℕ) :
    boundsCheck i len = -1 ∨
      (1 ≤ i ∧ i ≤ (len : ℤ) ∧ boundsCheck i len = i - 1) := by
  unfold boundsCheck
  split
  · exact Or.inl rfl
  · rename_i h
    push_neg at h
    exact Or.inr ⟨h.1, h.2, rfl⟩

theorem listIndex_num (n : JSNum) (len : ℕ) (r : ℚ) :
    listIndex (.num n) len r = boundsCheck (toInt32 n) len := rfl

theorem listIndex_str (s : String) (len : ℕ) (r : ℚ) :
    listIndex (.str s) len r =
      if s = "last" then (if 0 < len then (len : ℤ) - 1 else -1)
      else if s = "random" ∨ s = "*" then
        (if 0 < len then toInt32 (.finite (r * (len : ℚ))) else -1)
      else boundsCheck (toInt32 (orZero (parseJSNumber s))) len := by
  simp only [listIndex, toNumber, SValue.str.injEq]

theorem listIndex_bool (b : Bool) (len : ℕ) (r : ℚ) :
    listIndex (.bool b) len r =
      boundsCheck (toInt32 (orZero (toNumber (.bool b)))) len := rfl

theorem listIndex_null (len : ℕ) (r : ℚ) :
    listIndex .null len r = boundsCheck (toInt32 (orZero (toNumber .null))) len := rfl

theorem listIndex_undefined (len : ℕ) (r : ℚ) :
    listIndex .undefined len r = boundsCheck (toInt32 (orZero (toNumber .undefined))) len := rfl

theorem boundsCheck_nonneg_lt (len : ℕ) (i : ℤ) (hi : 0 ≤ boundsCheck i len) :
    boundsCheck i len < (len : ℤ) := by
  rcases boundsCheck_cases i len with hc | ⟨hc1, hc2, hc3⟩ <;> omega

theorem randomInt32_nonneg_lt (r : ℚ) (len : ℕ) (h0 : 0 ≤ r) (h1 : r < 1)
    (hl : 0 < len) (h : 0 ≤ toInt32 (.finite (r * (len : ℚ)))) :
    toInt32 (.finite (r * (len : ℚ))) < (len : ℤ) := by
  have ht := randomTrunc_bounds r len h0 h1 hl
  revert h
  unfold toInt32
  have he1 : 0 ≤ truncQ (r * (len : ℚ)) % (2 ^ 32 : ℤ) :=
    Int.emod_nonneg _ (by norm_num)
  have he2 : truncQ (r * (len : ℚ)) % (2 ^ 32 : ℤ) < 2 ^ 32 :=
    Int.emod_lt_of_pos _ (by norm_num)
  dsimp only
  split <;> intro h <;> omega

/-- Any nonnegative result of `listIndex` is a strictly in-range offset, for
every list length (even lengths past `2 ^ 31`, where the random branch can
go negative, a nonnegative result stays below the length). -/
theorem listIndex_nonneg_lt (idx : SValue) (len : ℕ) (r : ℚ)
    (h0 : 0 ≤ r) (h1 : r < 1) (h : 0 ≤ listIndex idx len r) :
    listIndex idx len r < (len : ℤ) := by
  cases idx with
  | num n =>
    rw [listIndex_num] at h ⊢
    exact boundsCheck_nonneg_lt len _ h
  | str s =>
    rw [listIndex_str] at h ⊢
    by_cases hlast : s = "last"
    · rw [if_pos hlast] at h ⊢
      split at h <;> omega
    · rw [if_neg hlast] at h ⊢
      by_cases hrand : s = "random" ∨ s = "*"
      · rw [if_pos hrand] at h ⊢
        split at h <;> rename_i hl
        · rw [if_pos hl]
          exact randomInt32_nonneg_lt r len h0 h1 hl h
        · omega
      · rw [if_neg hrand] at h ⊢
        exact boundsCheck_nonneg_lt len _ h
  | bool b =>
    rw [listIndex_bool] at h ⊢
    exact boundsCheck_nonneg_lt len _ h
  | null =>
    rw [listIndex_null] at h ⊢
    exact boundsCheck_nonneg_lt len _ h
  | undefined =>
    rw [listIndex_undefined] at h ⊢
    exact boundsCheck_nonneg_lt len _ h

/-- Totality of `listIndex` on lists of length at most `2 ^ 31`. -/
theorem listIndex_total_small (idx : SValue) (len : ℕ) (r : ℚ)
    (h0 : 0 ≤ r) (h1 : r < 1) (hlen : len ≤ 2 ^ 31) :
    listIndex idx len r = -1 ∨
      (0 ≤ listIndex idx len r ∧ listIndex idx len r ≤ (len : ℤ) - 1) := by
  have hbc : ∀ i : ℤ, boundsCheck i len = -1 ∨
      (0 ≤ boundsCheck i len ∧ boundsCheck i len ≤ (len : ℤ) - 1) := by
    intro i
    rcases boundsCheck_cases i len with hc | ⟨hc1, hc2, hc3⟩
    · exact Or.inl hc
    · exact Or.inr (by omega)
  cases idx with
  | num n => rw [listIndex_num]; exact hbc _
  | str s =>
    rw [listIndex_str]
    by_cases hlast : s = "last"
    · rw [if_pos hlast]; split <;> [right; left] <;> omega
    · rw [if_neg hlast]
      by_cases hrand : s = "random" ∨ s = "*"
      · rw [if_pos hrand]
        split <;> rename_i hl
        · have ht := randomTrunc_bounds r len h0 h1 hl
          have hid := toInt32_of_small (r * (len : ℚ)) ht.1 (by omega)
          rw [hid]
          exact Or.inr (by omega)
        · exact Or.inl rfl
      · rw [if_neg hrand]; exact hbc _
  | bool b => rw [listIndex_bool]; exact hbc _
  | null => rw [listIndex_null]; exact hbc _
  | undefined => rw [listIndex_undefined]; exact hbc _

/-- C2 counterexample: the claim describes the numeric coercion as plain
truncation toward zero, but the source applies `| 0` (ToInt32), which wraps
modulo `2 ^ 32`.  The number `4294967301 = 2 ^ 32 + 5` truncates to itself,
which is not in `[1, 5]`, so the claim demands `-1`; the code wraps it to
`5` and returns offset `4`.  Likewise the random branch on a list of length
`4294967295` with sample `3 / 4` returns `-1073741825`, which is neither
`-1` nor an offset in `[0, length - 1]`, refuting totality as claimed. -/
theorem listIndex_toInt32_wrap_cex :
    listIndex (.num (.finite 4294967301)) 5 0 = 4 ∧
    ¬(1 ≤ truncQ 4294967301 ∧ truncQ 4294967301 ≤ 5) ∧
    listIndex (.str "random") 4294967295 (3 / 4) = -1073741825 ∧
    (0 : ℚ) ≤ 3 / 4 ∧ (3 / 4 : ℚ) < 1 ∧
    ¬(listIndex (.str "random") 4294967295 (3 / 4) = -1 ∨
      (0 ≤ listIndex (.str "random") 4294967295 (3 / 4) ∧
       listIndex (.str "random") 4294967295 (3 / 4) ≤ (4294967295 : ℤ) - 1)) := by
  have h5 : toInt32 (.finite 4294967301) = 5 := by norm_num [toInt32, truncQ]
  have hr : listIndex (.str "random") 4294967295 (3 / 4) = -1073741825 := by
    rw [listIndex_str, if_neg (by decide), if_pos (Or.inl rfl), if_pos (by norm_num)]
    norm_num [toInt32, truncQ]
  refine ⟨?_, ?_, hr, by norm_num, by norm_num, ?_⟩
  · rw [listIndex_num, h5]; norm_num [boundsCheck]
  · norm_num [truncQ]
  · rw [hr]; norm_num

/-- C2 (amended): `listIndex` is total on every length up to `2 ^ 31`
(returning `-1` or an offset in `[0, length - 1]`), and a nonnegative result
is below the length for every length; `"last"` resolves to `length - 1` (or
`-1` when empty); any non-symbolic index is numerically coerced, truncated
toward zero and reduced by ToInt32 (wrapping modulo `2 ^ 32` into
`[-2 ^ 31, 2 ^ 31)`, non-numeric becoming `0`), and yields `-1` unless that
32-bit value lies in `[1, length]`; `listIndex("last", 0) = -1`,
`listIndex("last", 5) = 4`, `listIndex(0, 5) = -1`, `listIndex(6, 5) = -1`. -/
theorem listIndex_amended (idx : SValue) (len : ℕ) (r : ℚ)
    (h0 : 0 ≤ r) (h1 : r < 1) :
    (len ≤ 2 ^ 31 → listIndex idx len r = -1 ∨
      (0 ≤ listIndex idx len r ∧ listIndex idx len r ≤ (len : ℤ) - 1)) ∧
    (0 ≤ listIndex idx len r → listIndex idx len r < (len : ℤ)) ∧
    (listIndex (.str "last") len r = if 0 < len then (len : ℤ) - 1 else -1) ∧
    (∀ n : JSNum, listIndex (.num n) len r = boundsCheck (toInt32 n) len) ∧
    (∀ s : String, s ≠ "last" → s ≠ "random" → s ≠ "*" →
      listIndex (.str s) len r = boundsCheck (toInt32 (orZero (parseJSNumber s))) len) ∧
    listIndex (.str "last") 0 r = -1 ∧
    listIndex (.str "last") 5 r = 4 ∧
    listIndex (.num (.finite 0)) 5 r = -1 ∧
    listIndex (.num (.finite 6)) 5 r = -1 := by
  refine ⟨fun hlen => listIndex_total_small idx len r h0 h1 hlen,
    fun h => listIndex_nonneg_lt idx len r h0 h1 h, ?_, fun n => listIndex_num n len r,
    ?_, ?_, ?_, ?_, ?_⟩
  · rw [listIndex_str, if_pos rfl]
  · intro s hl hr hs
    rw [listIndex_str, if_neg hl, if_neg (by simp [hr, hs])]
  · rw [listIndex_str]; norm_num
  · rw [listIndex_str]; norm_num
  · rw [listIndex_num]
    have : toInt32 (.finite 0) = 0 := by norm_num [toInt32, truncQ]
    rw [this]; norm_num [boundsCheck]
  · rw [listIndex_num]
    have : toInt32 (.finite 6) = 6 := by norm_num [toInt32, truncQ]
    rw [this]; norm_num [boundsCheck]

/-- Witness for `listIndex_amended` at `idx = "last"`, `len = 5`, `r = 0`. -/
theorem listIndex_amended_witness :
    (0 : ℚ) ≤ 0 ∧ (0 : ℚ) < 1 ∧ listIndex (.str "last") 5 0 = 4 :=
  ⟨le_refl 0, by norm_num,
    (listIndex_amended (.str "last") 5 0 (le_refl 0) (by norm_num)).2.2.2.2.2.2.1⟩

/-! ### Floored modulo -/

theorem truncQ_gap (q : ℚ) : -1 < q - (truncQ q : ℚ) ∧ q - (truncQ q : ℚ) < 1 := by
  unfold truncQ
  by_cases h : 0 ≤ q
  · rw [if_pos h]
    constructor
    · have := Int.floor_le q; linarith
    · have := Int.lt_floor_add_one q; linarith
  · rw [if_neg h]
    constructor
    · have := Int.ceil_lt_add_one q; linarith
    · have := Int.le_ceil q; linarith

/-- C5: `mod` is floored modulo on finite numbers: for a nonzero modulus the
result lies in `[0, m)` for `m > 0` and in `(m, 0]` for `m < 0` (same sign
as the modulus, or zero); `mod(-1, 3) = 2`, `mod(1, -3) = -2`,
`mod(5, 5) = 0`. -/
theorem mod_floored_sign (n m : ℚ) (hm : m ≠ 0) :
    (0 < m → 0 ≤ mod n m ∧ mod n m < m) ∧
    (m < 0 → m < mod n m ∧ mod n m ≤ 0) ∧
    mod (-1) 3 = 2 ∧ mod 1 (-3) = -2 ∧ mod 5 5 = 0 := by
  have hex1 : mod (-1) 3 = 2 := by
    have ht : truncQ (-(1 / 3) : ℚ) = 0 := by norm_num [truncQ]
    norm_num [mod, jsRem, ht]
  have hex2 : mod 1 (-3) = -2 := by
    have ht : truncQ (-(1 / 3) : ℚ) = 0 := by norm_num [truncQ]
    norm_num [mod, jsRem, ht]
  have hex3 : mod 5 5 = 0 := by
    have ht : truncQ (1 : ℚ) = 1 := by norm_num [truncQ]
    norm_num [mod, jsRem, ht]
  have hn : n = m * (n / m) := by field_simp
  set s : ℚ := n / m - (truncQ (n / m) : ℚ) with hsdef
  have hrem : jsRem n m = m * s := by
    rw [hsdef, mul_sub]
    unfold jsRem
    congr 1
  have hdiv : jsRem n m / m = s := by
    rw [hrem]
    exact mul_div_cancel_left₀ _ hm
  have hgap := truncQ_gap (n / m)
  rw [← hsdef] at hgap
  have hmod : mod n m = if s < 0 then m * s + m else m * s := by
    have hm0 : mod n m = if jsRem n m / m < 0 then jsRem n m + m else jsRem n m := rfl
    rw [hm0, hdiv, hrem]
  refine ⟨?_, ?_, hex1, hex2, hex3⟩
  · intro hmp
    rw [hmod]
    by_cases hs : s < 0
    · rw [if_pos hs]
      constructor <;> nlinarith [hgap.1, hgap.2]
    · rw [if_neg hs]
      push_neg at hs
      constructor <;> nlinarith [hgap.1, hgap.2]
  · intro hmn
    rw [hmod]
    by_cases hs : s < 0
    · rw [if_pos hs]
      constructor <;> nlinarith [hgap.1, hgap.2]
    · rw [if_neg hs]
      push_neg at hs
      constructor <;> nlinarith [hgap.1, hgap.2]

/-- Witness for `mod_floored_sign` at `n = -1`, `m = 3`. -/
theorem mod_floored_sign_witness :
    (3 : ℚ) ≠ 0 ∧ mod (-1) 3 = 2 ∧ (0 < (3 : ℚ) → 0 ≤ mod (-1) 3 ∧ mod (-1) 3 < 3) :=
  ⟨by norm_num, (mod_floored_sign (-1) 3 (by norm_num)).2.2.1,
    (mod_floored_sign (-1) 3 (by norm_num)).1⟩

/-! ### List operations -/

theorem toInt32_finite_zero : toInt32 (.finite 0) = 0 := by
  norm_num [toInt32, truncQ]

theorem toInt32_finite_one : toInt32 (.finite 1) = 1 := by
  norm_num [toInt32, truncQ]

/-- C4 counterexample: the claim says `listDelete` resolves every index
through `listIndex` and never mutates when the resolution is `-1`; but for
the index `'all'` (which `listIndex` resolves to `-1`, since `+'all'` is
`NaN`) `listDelete` short-circuits before `listIndex` and clears the list. -/
theorem listDelete_all_mutates_cex :
    listIndex (.str "all") 1 0 = -1 ∧
    (listDelete ⟨[.str "a"], false⟩ (.str "all") 0).value ≠ [SValue.str "a"] := by
  constructor
  · rw [listIndex_str, if_neg (by decide), if_neg (by decide)]
    have hp : parseJSNumber "all" = .nan := by decide
    have ho : orZero JSNum.nan = .finite 0 := rfl
    rw [hp, ho, toInt32_finite_zero]
    norm_num [boundsCheck]
  · decide

/-- C4 (amended): `listReplace` and `listInsert` resolve the index through
`listIndex` (insert with bound `length + 1`) and return the list fully
unchanged on a `-1` resolution; `listDelete` first special-cases the
`'all'` index, clearing the list, and otherwise no-ops on `-1` like the
rest; `listGet` never faults: it always returns the empty string,
`undefined`, or an element of the list. -/
theorem list_ops_noop_on_not_found (l : ListVar) (idx v : SValue) (r : ℚ) :
    (listIndex idx l.value.length r = -1 → listReplace l idx v r = l) ∧
    (listIndex idx (l.value.length + 1) r = -1 → listInsert l idx v r = l) ∧
    (idx ≠ SValue.str "all" → listIndex idx l.value.length r = -1 →
      listDelete l idx r = l) ∧
    listDelete l (.str "all") r = { l with value := [] } ∧
    (∀ arr : List SValue,
      listGet arr idx r = .str "" ∨ listGet arr idx r = .undefined ∨
        listGet arr idx r ∈ arr) := by
  refine ⟨fun h => by simp [listReplace, h], fun h => by simp [listInsert, h],
    fun hall h => by simp [listDelete, hall, h], by simp [listDelete], ?_⟩
  intro arr
  by_cases h : listIndex idx arr.length r = -1
  · left; simp [listGet, h]
  · simp only [listGet, if_neg h]
    unfold jsArrayGet
    split
    · rename_i hin
      right; right
      have htn : (listIndex idx arr.length r).toNat < arr.length := by omega
      rw [List.getD_eq_getElem _ _ htn]
      exact List.getElem_mem htn
    · right; left; rfl

/-- Witness for `list_ops_noop_on_not_found`: replacing at index `0` of an
empty list resolves to `-1` and leaves the list untouched. -/
theorem list_ops_noop_on_not_found_witness :
    listIndex (.num (.finite 0)) (ListVar.mk [] true).value.length 0 = -1 ∧
    listReplace ⟨[], true⟩ (.num (.finite 0)) (.str "x") 0 = ⟨[], true⟩ := by
  have h : listIndex (.num (.finite 0)) (ListVar.mk [] true).value.length 0 = -1 := by
    rw [listIndex_num, toInt32_finite_zero]
    norm_num [boundsCheck]
  exact ⟨h, (list_ops_noop_on_not_found ⟨[], true⟩ (.num (.finite 0)) (.str "x") 0).1 h⟩

/-- C8 counterexample: `listDelete` with the `'all'` index empties the list
(a mutation) but does not set `_monitorUpToDate` to `false`. -/
theorem listDelete_all_keeps_flag_cex :
    (listDelete ⟨[.str "a"], true⟩ (.str "all") 0).value ≠ [SValue.str "a"] ∧
    (listDelete ⟨[.str "a"], true⟩ (.str "all") 0).monitorUpToDate = true := by
  exact ⟨by decide, by decide⟩

/-- C8 (amended): every mutation performed through `listReplace`,
`listInsert`, or `listDelete` with an index other than `'all'` sets
`_monitorUpToDate` to `false` (and recomputes no cached representation);
`listDelete` with the `'all'` index clears the list but leaves the flag as
it was. -/
theorem list_mutations_mark_dirty (l : ListVar) (idx v : SValue) (r : ℚ) :
    (listIndex idx l.value.length r ≠ -1 →
      (listReplace l idx v r).monitorUpToDate = false) ∧
    (listIndex idx (l.value.length + 1) r ≠ -1 →
      (listInsert l idx v r).monitorUpToDate = false) ∧
    (idx ≠ SValue.str "all" → listIndex idx l.value.length r ≠ -1 →
      (listDelete l idx r).monitorUpToDate = false) ∧
    (listDelete l (.str "all") r).value = [] ∧
    (listDelete l (.str "all") r).monitorUpToDate = l.monitorUpToDate := by
  refine ⟨fun h => by simp [listReplace, h], fun h => by simp [listInsert, h],
    fun hall h => by simp [listDelete, hall, h], by simp [listDelete], by simp [listDelete]⟩

/-- Witness for `list_mutations_mark_dirty`: replacing element `1` of a
one-element list resolves in range and clears the flag. -/
theorem list_mutations_mark_dirty_witness :
    listIndex (.num (.finite 1)) (ListVar.mk [.str "a"] true).value.length 0 ≠ -1 ∧
    (listReplace ⟨[.str "a"], true⟩ (.num (.finite 1)) (.str "x") 0).monitorUpToDate
      = false := by
  have h : listIndex (.num (.finite 1)) (ListVar.mk [.str "a"] true).value.length 0 = 0 := by
    rw [listIndex_num, toInt32_finite_one]
    norm_num [boundsCheck]
  refine ⟨by rw [h]; norm_num, ?_⟩
  exact (list_mutations_mark_dirty ⟨[.str "a"], true⟩ (.num (.finite 1)) (.str "x") 0).1
    (by rw [h]; norm_num)

/-- C9: when `listIndex` resolves to `-1`, `listGet` returns the empty
string (not `undefined`, a sentinel number, or a fault) and reads nothing;
for a resolved (nonnegative) index it returns the element at that
zero-based offset, which is always in range. -/
theorem listGet_spec (arr : List SValue) (idx : SValue) (r : ℚ)
    (h0 : 0 ≤ r) (h1 : r < 1) :
    (listIndex idx arr.length r = -1 → listGet arr idx r = .str "") ∧
    (0 ≤ listIndex idx arr.length r →
      (listIndex idx arr.length r).toNat < arr.length ∧
      listGet arr idx r = arr.getD (listIndex idx arr.length r).toNat .undefined) := by
  constructor
  · intro h; simp [listGet, h]
  · intro h
    have hlt := listIndex_nonneg_lt idx arr.length r h0 h1 h
    have htn : (listIndex idx arr.length r).toNat < arr.length := by omega
    have hne : listIndex idx arr.length r ≠ -1 := by omega
    refine ⟨htn, ?_⟩
    simp only [listGet, if_neg hne]
    unfold jsArrayGet
    rw [if_pos ⟨h, hlt⟩]

/-- Witness for `listGet_spec`: reading index `0` of an empty list resolves
to `-1` and yields the empty string. -/
theorem listGet_spec_witness :
    listIndex (.num (.finite 0)) ([] : List SValue).length 0 = -1 ∧
    listGet [] (.num (.finite 0)) 0 = .str "" := by
  have h : listIndex (.num (.finite 0)) ([] : List SValue).length 0 = -1 := by
    rw [listIndex_num, toInt32_finite_zero]
    norm_num [boundsCheck]
  exact ⟨h, (listGet_spec [] (.num (.finite 0)) 0 le_rfl (by norm_num)).1 h⟩

/-! ### `listContains` versus `listIndexOf` -/

theorem jsEq_refl (n : JSNum) (h : n ≠ JSNum.nan) : jsEq n n = true := by
  cases n with
  | nan => exact absurd rfl h
  | posInf => rfl
  | negInf => rfl
  | finite q => simp [jsEq]

theorem compareEqual_refl (x : SValue) : compareEqual x x = true := by
  unfold compareEqual
  by_cases hw : toNumber x = JSNum.finite 0 ∧ isWhiteSpace x
  · simp [hw]
  · by_cases hn : toNumber x = JSNum.nan
    · simp [hw, hn]
    · simp [hw, hn, jsEq_refl _ hn]

theorem sEq_to_compareEqual (x y : SValue) (h : sEq x y = true) :
    compareEqual x y = true := by
  cases x <;> cases y <;> simp [sEq] at h
  case num.num a b =>
    cases a <;> cases b <;> simp [jsEq] at h
    · exact compareEqual_refl (.num .posInf)
    · exact compareEqual_refl (.num .negInf)
    · rw [h]; exact compareEqual_refl (.num (.finite _))
  case str.str a b => rw [h]; exact compareEqual_refl (.str _)
  case bool.bool a b => rw [h]; exact compareEqual_refl (.bool _)
  case null.null => exact compareEqual_refl .null
  case undefined.undefined => exact compareEqual_refl .undefined

theorem jsIndexOf_nonneg_or (l : List SValue) (item : SValue) :
    jsIndexOf l item = -1 ∨ 0 ≤ jsIndexOf l item := by
  induction l with
  | nil => exact Or.inl rfl
  | cons x t ih =>
    unfold jsIndexOf
    by_cases h : sEq x item
    · simp [h]
    · simp only [h, if_false, Bool.false_eq_true]
      rcases ih with h1 | h1
      · simp [h1]
      · simp [h1]
        omega

theorem jsIndexOf_ne_iff_any (l : List SValue) (item : SValue) :
    jsIndexOf l item ≠ -1 ↔ l.any (fun x => sEq x item) = true := by
  induction l with
  | nil => simp [jsIndexOf]
  | cons x t ih =>
    unfold jsIndexOf
    by_cases h : sEq x item
    · simp [h]
    · simp only [h, if_false, Bool.false_eq_true, List.any_cons, Bool.or_eq_true]
      rcases jsIndexOf_nonneg_or t item with h1 | h1
      · simp [h1] at ih ⊢
        simpa [h] using ih
      · have hne : jsIndexOf t item ≠ -1 := by omega
        have := ih.1 hne
        simp [h, hne, this]
        omega

theorem listIndexOfAux_ne_zero_iff (item : SValue) (l : List SValue) (i : ℕ) :
    listIndexOfAux item l i ≠ 0 ↔ l.any (fun x => compareEqual x item) = true := by
  induction l generalizing i with
  | nil => simp [listIndexOfAux]
  | cons x t ih =>
    unfold listIndexOfAux
    by_cases h : compareEqual x item
    · simp [h]
    · simp [h, ih]

/-- C10: `listContains` and `listIndexOf` decide membership by the same
`compareEqual` criterion: `listContains` is true exactly when `listIndexOf`
is nonzero.  The strict-equality fast path never changes the outcome
because `compareEqual` is reflexive on every scalar value. -/
theorem listContains_iff_listIndexOf (l : ListVar) (item : SValue) :
    (listContains l item = true ↔ listIndexOf l item ≠ 0) ∧
    (∀ x : SValue, compareEqual x x = true) := by
  refine ⟨?_, compareEqual_refl⟩
  unfold listContains listIndexOf
  rw [listIndexOfAux_ne_zero_iff]
  by_cases h : jsIndexOf l.value item ≠ -1
  · rw [if_pos h]
    constructor
    · intro _
      obtain ⟨x, hx, hsx⟩ := List.any_eq_true.1 ((jsIndexOf_ne_iff_any l.value item).1 h)
      exact List.any_eq_true.2 ⟨x, hx, sEq_to_compareEqual x item hsx⟩
    · intro _; rfl
  · rw [if_neg h]

/-! ### `waitPromise` -/

/-- C6: on settlement the awaiting thread's status is reset to `RUNNING`; a
rejection delivers "no value" (`undefined`) and logs a warning, and is never
propagated as a fault (the settle step always returns `.ok`); a resolution
delivers the resolved value. -/
theorem waitPromise_spec (out : PromiseOutcome) :
    waitPromiseStart.status = ThreadStatus.PROMISE_WAIT ∧
    (∀ e, out = .rejected e →
      ∃ s', waitPromiseSettle out waitPromiseStart = .ok s' ∧
        s'.status = ThreadStatus.RUNNING ∧ waitPromiseResume s' = .undefined ∧
        s'.warnings ≠ []) ∧
    (∀ v, out = .resolved v →
      ∃ s', waitPromiseSettle out waitPromiseStart = .ok s' ∧
        s'.status = ThreadStatus.RUNNING ∧ waitPromiseResume s' = v) := by
  refine ⟨rfl, ?_, ?_⟩
  · rintro e rfl
    exact ⟨_, rfl, rfl, rfl, by simp [waitPromiseStart, waitPromiseSettle]⟩
  · rintro v rfl
    exact ⟨_, rfl, rfl, rfl⟩

/-- Witness for `waitPromise_spec` on a concrete rejection. -/
theorem waitPromise_spec_witness :
    ∃ s', waitPromiseSettle (.rejected "boom") waitPromiseStart = .ok s' ∧
      s'.status = ThreadStatus.RUNNING ∧ waitPromiseResume s' = .undefined ∧
      s'.warnings ≠ [] :=
  (waitPromise_spec (.rejected "boom")).2.1 "boom" rfl

/-! ### `waitThreads` -/

theorem waitThreadsResume_none_running (env : ThreadsEnv) (threads : List ℕ)
    (st : ThreadStatus) (ha : anyRunning env threads = false) :
    waitThreadsResume env threads st = (st, true) := by
  rw [waitThreadsResume, if_pos ha]

theorem waitThreadsResume_running (env : ThreadsEnv) (threads : List ℕ)
    (st : ThreadStatus) (ha : anyRunning env threads = true) :
    waitThreadsResume env threads st =
      ((if allWaiting env threads then ThreadStatus.YIELD_TICK else st), false) := by
  rw [waitThreadsResume, if_neg (by simp [ha])]

theorem waitThreadsRun_returns_only_done (envs : ℕ → ThreadsEnv)
    (threads : List ℕ) :
    ∀ (fuel : ℕ) (st : ThreadStatus) (k0 n : ℕ) (stn : ThreadStatus),
      waitThreadsRun envs threads st fuel k0 = some (n, stn) →
      anyRunning (envs n) threads = false ∧
      ∀ j, k0 ≤ j → j < n → anyRunning (envs j) threads = true := by
  intro fuel
  induction fuel with
  | zero =>
    intro st k0 n stn h
    simp [waitThreadsRun] at h
  | succ f ih =>
    intro st k0 n stn h
    unfold waitThreadsRun at h
    cases ha : anyRunning (envs k0) threads with
    | false =>
      rw [waitThreadsResume_none_running _ _ _ ha] at h
      simp at h
      obtain ⟨rfl, rfl⟩ := h
      exact ⟨ha, fun j hj1 hj2 => absurd hj1 (by omega)⟩
    | true =>
      rw [waitThreadsResume_running _ _ _ ha] at h
      simp at h
      obtain ⟨hdone, hmid⟩ := ih _ _ _ _ h
      refine ⟨hdone, fun j hj1 hj2 => ?_⟩
      rcases eq_or_lt_of_le hj1 with rfl | hlt
      · exact ha
      · exact hmid j (by omega) hj2

/-- C7: `waitThreads` returns only at a resumption where no listed thread
remains in the scheduler's active set, and never earlier; when none remain
it returns immediately with no further suspension; when some remain but all
listed threads count as waiting it sets the current thread's status to
`YIELD_TICK` before suspending; and "all listed count as waiting" says
exactly that every still-active listed thread is barrier-waiting. -/
theorem waitThreads_spec (envs : ℕ → ThreadsEnv) (threads : List ℕ)
    (st stw : ThreadStatus) (fuel k n : ℕ) (stn : ThreadStatus) :
    (waitThreadsRun envs threads st fuel k = some (n, stn) →
      anyRunning (envs n) threads = false ∧
      ∀ j, k ≤ j → j < n → anyRunning (envs j) threads = true) ∧
    (anyRunning (envs k) threads = false →
      waitThreadsRun envs threads st (fuel + 1) k = some (k, st)) ∧
    (anyRunning (envs k) threads = true → allWaiting (envs k) threads = true →
      waitThreadsResume (envs k) threads stw = (ThreadStatus.YIELD_TICK, false)) ∧
    (allWaiting (envs k) threads = true ↔
      ∀ t ∈ threads, (envs k).active t = true →
        (envs k).status t = ThreadStatus.PROMISE_WAIT ∨
        (envs k).status t = ThreadStatus.YIELD_TICK) := by
  refine ⟨waitThreadsRun_returns_only_done envs threads fuel st k n stn, ?_, ?_, ?_⟩
  · intro ha
    unfold waitThreadsRun
    rw [waitThreadsResume_none_running _ _ _ ha]
    rfl
  · intro ha hw
    rw [waitThreadsResume_running _ _ _ ha, if_pos hw]
  · unfold allWaiting isWaitingThread
    rw [List.all_eq_true]
    constructor
    · intro h t ht hact
      have := h t ht
      simp [hact] at this
      rcases this with h1 | h1
      · exact Or.inl h1
      · exact Or.inr h1
    · intro h t ht
      by_cases hact : (envs k).active t = true
      · rcases h t ht hact with h1 | h1 <;> simp [h1]
      · simp [Bool.not_eq_true] at hact
        simp [hact]

/-- Witness for `waitThreads_spec`: with the one listed thread already out
of the active set, the very first resumption returns. -/
theorem waitThreads_spec_witness :
    anyRunning ((fun _ => ⟨fun _ => false, fun _ => ThreadStatus.RUNNING⟩ :
        ℕ → ThreadsEnv) 0) [0] = false ∧
    waitThreadsRun (fun _ => ⟨fun _ => false, fun _ => ThreadStatus.RUNNING⟩)
      [0] ThreadStatus.RUNNING 1 0 = some (0, ThreadStatus.RUNNING) := by
  refine ⟨rfl, ?_⟩
  exact (waitThreads_spec (fun _ => ⟨fun _ => false, fun _ => ThreadStatus.RUNNING⟩)
    [0] ThreadStatus.RUNNING ThreadStatus.RUNNING 0 0 0 ThreadStatus.RUNNING).2.1 rfl

/-! ### The compatibility bridge -/

theorem bridgeLoop_finished_not_yield (over : ℕ → Bool) (blocks : ℕ → BlockResult) :
    ∀ (fuel : ℕ) (s : CompatState) (v : SValue) (k : ℕ) (w : SValue)
      (s' : CompatState), bridgeLoop over blocks fuel s v k = .finished w s' →
      s'.status ≠ ThreadStatus.YIELD ∧ s'.status ≠ ThreadStatus.YIELD_TICK := by
  intro fuel
  induction fuel with
  | zero =>
    intro s v k w s' h
    simp [bridgeLoop] at h
  | succ f ih =>
    intro s v k w s' h
    unfold bridgeLoop at h
    by_cases hc : s.status = ThreadStatus.YIELD ∨ s.status = ThreadStatus.YIELD_TICK
    · rw [if_pos hc] at h
      cases hb : blocks k with
      | value v' ns =>
        rw [hb] at h
        exact ih _ _ _ _ _ h
      | promise p ns =>
        rw [hb] at h
        cases h
    · rw [if_neg hc] at h
      cases h
      push_neg at hc
      exact hc

/-- C3: in the bridge loop, a `YIELD` status is reset to `RUNNING` and the
loop suspends exactly when the warp depth is `0` or the stuck heuristic
trips (the heuristic not even being consulted at warp depth `0`); a
`YIELD_TICK` status always suspends once, whatever the warp depth; the loop
re-invokes the primitive until a non-yield status or an async handle
appears, a final value being produced only with a non-yield status; and an
async result — initial or mid-loop — is delegated to the promise wait. -/
theorem bridge_spec (s : CompatState) (over1 : Bool) (fuel k : ℕ) (v : SValue)
    (over : ℕ → Bool) (blocks : ℕ → BlockResult) :
    (s.status = ThreadStatus.YIELD →
      (yieldPhase s over1).1.status = ThreadStatus.RUNNING ∧
      ((yieldPhase s over1).2 = true ↔
        s.warp = 0 ∨ (isStuckStep s.stuckCounter over1).2 = true) ∧
      (s.warp = 0 → (yieldPhase s over1).1.stuckCounter = s.stuckCounter) ∧
      (s.warp ≠ 0 →
        (yieldPhase s over1).1.stuckCounter = (isStuckStep s.stuckCounter over1).1)) ∧
    (s.status = ThreadStatus.YIELD_TICK → yieldPhase s over1 = (s, true)) ∧
    (∀ w s', bridgeLoop over blocks fuel s v k = .finished w s' →
      s'.status ≠ ThreadStatus.YIELD ∧ s'.status ≠ ThreadStatus.YIELD_TICK) ∧
    (s.status ≠ ThreadStatus.YIELD → s.status ≠ ThreadStatus.YIELD_TICK →
      bridgeLoop over blocks (fuel + 1) s v k = .finished v s) ∧
    ((s.status = ThreadStatus.YIELD ∨ s.status = ThreadStatus.YIELD_TICK) →
      ∀ p ns, blocks k = .promise p ns →
        bridgeLoop over blocks (fuel + 1) s v k =
          .delegated p { (yieldPhase s (over k)).1 with
                         status := ThreadStatus.PROMISE_WAIT }) ∧
    (∀ p ns, blocks 0 = .promise p ns →
      executeInCompatibilityLayer fuel s over blocks =
        .delegated p { s with status := ThreadStatus.PROMISE_WAIT }) := by
  refine ⟨?_, ?_, bridgeLoop_finished_not_yield over blocks fuel s v k, ?_, ?_, ?_⟩
  · intro hY
    rw [yieldPhase, if_pos hY]
    by_cases hw : s.warp = 0
    · rw [if_pos hw]
      exact ⟨rfl, by simp [hw], fun _ => rfl, fun h => absurd hw h⟩
    · rw [if_neg hw]
      refine ⟨rfl, ?_, fun h => absurd h hw, fun _ => rfl⟩
      simp [hw]
  · intro hYT
    rw [yieldPhase, if_neg (by simp [hYT])]
  · intro h1 h2
    unfold bridgeLoop
    rw [if_neg (by simp [h1, h2])]
  · intro hc p ns hb
    unfold bridgeLoop
    rw [if_pos hc, hb]
  · intro p ns hb
    unfold executeInCompatibilityLayer
    rw [hb]

/-- Witness for `bridge_spec`: a `YIELD_TICK` state deep in warp still
suspends, with state untouched. -/
theorem bridge_spec_witness :
    yieldPhase ⟨ThreadStatus.YIELD_TICK, 7, 3⟩ false =
      (⟨ThreadStatus.YIELD_TICK, 7, 3⟩, true) :=
  (bridge_spec ⟨ThreadStatus.YIELD_TICK, 7, 3⟩ false 0 0 (.str "")
    (fun _ => false) (fun _ => .value (.str "") ThreadStatus.RUNNING)).2.1 rfl

end ScratchVM
